import Mathlib

/-!
# WebFetch MCP server: verification of the fetch-and-extract pipeline

Shallow embedding of the core of `src/WebFetch/main.py` (class `WebFetchMCP`):
metadata extraction, two-stage content extraction, link extraction and
classification, substring search with context windows, and the batch fetch
aggregation.  HTML parsing (BeautifulSoup) and the primary content extractor
(trafilatura) are third-party calls: a fetched document is modelled as the
parse tree the HTML parser produced (`Node`) together with the opaque result
of the primary extractor (`Document.traf`).
-/

mutual
/-- A node of the parsed HTML document, as produced by the third-party HTML
parser: either a text node or an element with a tag name, an attribute list
and a child list (`NodeList`, a mutually defined list of nodes). -/
inductive Node where
  | text (s : String)
  | elem (tag : String) (attrs : List (String × String)) (children : NodeList)
inductive NodeList where
  | nil
  | cons (head : Node) (tail : NodeList)
end

/-- Build a `NodeList` from a plain list of nodes. -/
def NodeList.ofList : List Node → NodeList
  | [] => .nil
  | n :: ns => .cons n (NodeList.ofList ns)

/-- Attribute lookup on an attribute list (first binding wins, as in the
parser's attribute dictionary). -/
def attrGet (attrs : List (String × String)) (key : String) : Option String :=
  (attrs.find? (fun p => p.1 == key)).map (·.2)

/-- Python `str.strip()` on a character list: leading and trailing
whitespace removed. -/
def trimL (l : List Char) : List Char :=
  ((l.dropWhile Char.isWhitespace).reverse.dropWhile Char.isWhitespace).reverse

/-- Lower-casing a string character by character (`str.lower()`). -/
def strToLower (s : String) : String := String.mk (s.data.map Char.toLower)

/-- Join character lists with a separator (`sep.join(...)`). -/
def joinWith (sep : List Char) : List (List Char) → List Char
  | [] => []
  | [x] => x
  | x :: xs => x ++ sep ++ joinWith sep xs

mutual
/-- `soup.find_all(pred)` over one node: all element nodes of its subtree
satisfying the predicate, in document (pre-)order. -/
def findElemsNode (p : String → List (String × String) → Bool) : Node → List Node
  | Node.text _ => []
  | Node.elem t a c =>
      (if p t a then [Node.elem t a c] else []) ++ findAllElems p c
/-- `soup.find_all(pred)` over a forest: all element nodes satisfying the
predicate, in document (pre-)order. -/
def findAllElems (p : String → List (String × String) → Bool) : NodeList → List Node
  | .nil => []
  | .cons n rest => findElemsNode p n ++ findAllElems p rest
end

/-- `soup.find(pred)`: the first element in document order satisfying the
predicate. -/
def findFirstElem (p : String → List (String × String) → Bool) (ns : NodeList) : Option Node :=
  (findAllElems p ns).head?

mutual
/-- All text content of one node's subtree, concatenated in document order
(`node.get_text()`). -/
def nodeAllText : Node → String
  | Node.text s => s
  | Node.elem _ _ c => getAllText c
/-- All text content of a forest, concatenated in document order
(`soup.get_text()`). -/
def getAllText : NodeList → String
  | .nil => ""
  | .cons n rest => nodeAllText n ++ getAllText rest
end

mutual
/-- `get_text(strip=True)` over one node: each string stripped, empty strings
skipped, concatenated. -/
def nodeStrippedText : Node → String
  | Node.text s => String.mk (trimL s.data)
  | Node.elem _ _ c => getStrippedText c
/-- `get_text(strip=True)` over a forest. -/
def getStrippedText : NodeList → String
  | .nil => ""
  | .cons n rest => nodeStrippedText n ++ getStrippedText rest
end

mutual
/-- Removal of every element whose tag is in `tags`, subtree included
(`for script in soup(["script", "style"]): script.extract()`). -/
def stripTagsNode (tags : List String) : Node → NodeList → NodeList
  | Node.text s, rest => .cons (Node.text s) rest
  | Node.elem t a c, rest =>
      if tags.contains t then rest
      else .cons (Node.elem t a (stripTags tags c)) rest
/-- Removal over a forest. -/
def stripTags (tags : List String) : NodeList → NodeList
  | .nil => .nil
  | .cons n rest => stripTagsNode tags n (stripTags tags rest)
end

/-- The page metadata dictionary built by `_extract_metadata`: `some v` models
the key being present with value `v`, `none` models the key being absent from
the returned dict. -/
structure PageMetadata where
  title : Option String := none
  description : Option String := none
  keywords : Option String := none
  author : Option String := none
  og_title : Option String := none
  og_description : Option String := none
  og_image : Option String := none
  og_url : Option String := none
  og_type : Option String := none
  twitter_card : Option String := none
  twitter_title : Option String := none
  twitter_description : Option String := none
  twitter_image : Option String := none
  canonical_url : Option String := none
  language : Option String := none
deriving Repr, DecidableEq

/-- The recognized metadata fields fed by `<meta>` tags in
`_extract_metadata`'s if/elif chain. -/
inductive MetaField where
  | description | keywords | author
  | og_title | og_description | og_image | og_url | og_type
  | twitter_card | twitter_title | twitter_description | twitter_image
deriving Repr, DecidableEq

/-- Which metadata field a given `<meta>` element feeds, following the
if/elif chain of `_extract_metadata` (lower-cased `name` checked before
lower-cased `property`; `none` when the tag is not recognized). -/
def metaFieldOf (attrs : List (String × String)) : Option MetaField :=
  let name := strToLower ((attrGet attrs "name").getD "")
  let prop := strToLower ((attrGet attrs "property").getD "")
  if name == "description" then some .description
  else if name == "keywords" then some .keywords
  else if name == "author" then some .author
  else if prop == "og:title" then some .og_title
  else if prop == "og:description" then some .og_description
  else if prop == "og:image" then some .og_image
  else if prop == "og:url" then some .og_url
  else if prop == "og:type" then some .og_type
  else if name == "twitter:card" then some .twitter_card
  else if name == "twitter:title" then some .twitter_title
  else if name == "twitter:description" then some .twitter_description
  else if name == "twitter:image" then some .twitter_image
  else none

/-- Read the given metadata field from the dictionary. -/
def getField (f : MetaField) (md : PageMetadata) : Option String :=
  match f with
  | .description => md.description
  | .keywords => md.keywords
  | .author => md.author
  | .og_title => md.og_title
  | .og_description => md.og_description
  | .og_image => md.og_image
  | .og_url => md.og_url
  | .og_type => md.og_type
  | .twitter_card => md.twitter_card
  | .twitter_title => md.twitter_title
  | .twitter_description => md.twitter_description
  | .twitter_image => md.twitter_image

/-- Set the given metadata field (dictionary assignment `metadata[k] = v`). -/
def setField (f : MetaField) (v : String) (md : PageMetadata) : PageMetadata :=
  match f with
  | .description => { md with description := some v }
  | .keywords => { md with keywords := some v }
  | .author => { md with author := some v }
  | .og_title => { md with og_title := some v }
  | .og_description => { md with og_description := some v }
  | .og_image => { md with og_image := some v }
  | .og_url => { md with og_url := some v }
  | .og_type => { md with og_type := some v }
  | .twitter_card => { md with twitter_card := some v }
  | .twitter_title => { md with twitter_title := some v }
  | .twitter_description => { md with twitter_description := some v }
  | .twitter_image => { md with twitter_image := some v }

/-- Processing of one `<meta>` tag by the if/elif chain: the recognized field,
if any, is assigned the tag's `content` attribute (empty string when the
attribute is missing). -/
def processMeta (md : PageMetadata) (attrs : List (String × String)) : PageMetadata :=
  match metaFieldOf attrs with
  | some f => setField f ((attrGet attrs "content").getD "") md
  | none => md

/-- The element predicate of `soup.find('title')`. -/
def isTitleTag (t : String) (_ : List (String × String)) : Bool := t == "title"

/-- The element predicate of `soup.find_all('meta')`. -/
def isMetaTag (t : String) (_ : List (String × String)) : Bool := t == "meta"

/-- The element predicate of `soup.find('link', rel='canonical')`. -/
def isCanonicalLink (t : String) (a : List (String × String)) : Bool :=
  t == "link" && (attrGet a "rel").getD "" == "canonical"

/-- The element predicate of `soup.find('html')`. -/
def isHtmlTag (t : String) (_ : List (String × String)) : Bool := t == "html"

/-- Attribute lists of all `<meta>` elements of the document, in document
order (`soup.find_all('meta')`). -/
def metaAttrsOf (dom : NodeList) : List (List (String × String)) :=
  (findAllElems isMetaTag dom).map (fun n =>
    match n with
    | Node.elem _ a _ => a
    | Node.text _ => [])

/-- The `title` value assigned by `_extract_metadata`:
`title_tag.get_text(strip=True) if title_tag else ""`. -/
def titleTextOf (dom : NodeList) : String :=
  match findFirstElem isTitleTag dom with
  | some (Node.elem _ _ c) => getStrippedText c
  | _ => ""

/-- The canonical-URL block of `_extract_metadata`: assigns `canonical_url`
only when a `<link rel="canonical">` element exists (its `href`, defaulting
to the empty string). -/
def addCanonical (dom : NodeList) (md : PageMetadata) : PageMetadata :=
  match findFirstElem isCanonicalLink dom with
  | some (Node.elem _ a _) => { md with canonical_url := some ((attrGet a "href").getD "") }
  | _ => md

/-- The language block of `_extract_metadata`: assigns `language` only when
an `<html>` element exists (its `lang` attribute, defaulting to the empty
string). -/
def addLanguage (dom : NodeList) (md : PageMetadata) : PageMetadata :=
  match findFirstElem isHtmlTag dom with
  | some (Node.elem _ a _) => { md with language := some ((attrGet a "lang").getD "") }
  | _ => md

/-- `_extract_metadata`: title from the first `<title>` (empty string when
absent), the `<meta>` if/elif chain in document order, canonical URL from the
first `<link rel="canonical">` when present, language from the first `<html>`
element's `lang` attribute (empty string default) when such an element
exists. -/
def extract_metadata (dom : NodeList) : PageMetadata :=
  addLanguage dom (addCanonical dom
    ((metaAttrsOf dom).foldl processMeta { title := some (titleTextOf dom) }))

/-! ## Content extraction (`_fetch_webpage`, lines 255-274) -/

/-- Python `str.splitlines` for the common line boundaries: splits on
`\r\n`, `\r` and `\n`, with no trailing empty line. -/
def pySplitlines : List Char → List Char → List (List Char)
  | [], [] => []
  | [], acc => [acc.reverse]
  | '\r' :: '\n' :: rest, acc => acc.reverse :: pySplitlines rest []
  | '\r' :: rest, acc => acc.reverse :: pySplitlines rest []
  | '\n' :: rest, acc => acc.reverse :: pySplitlines rest []
  | c :: rest, acc => pySplitlines rest (c :: acc)

/-- Python `line.split("  ")`: split on each occurrence of the literal
two-space separator, scanning left to right. -/
def splitTwoSpace : List Char → List Char → List (List Char)
  | [], acc => [acc.reverse]
  | ' ' :: ' ' :: rest, acc => acc.reverse :: splitTwoSpace rest []
  | c :: rest, acc => splitTwoSpace rest (c :: acc)

/-- The whitespace-normalization step of the fallback extractor: split the
text on line boundaries, strip each line, split each line on the literal
two-space separator, strip each fragment, and join the non-empty fragments
with single newlines. -/
def cleanText (text : String) : String :=
  let lines := (pySplitlines text.data []).map trimL
  let chunks := (lines.map (fun l => (splitTwoSpace l []).map trimL)).flatten
  String.mk (joinWith ['\n'] (chunks.filter (fun c => !c.isEmpty)))

/-- The structural fallback extractor: remove `<script>` and `<style>`
subtrees, take the remaining text, and normalize its whitespace. -/
def fallbackExtract (dom : NodeList) : String :=
  cleanText (getAllText (stripTags ["script", "style"] dom))

/-- A fetched document: the raw body text together with the third-party
parser's tree for it and the opaque result of the primary (trafilatura)
content extractor on it, `none` when that extractor returned `None`. -/
structure Document where
  raw : String
  dom : NodeList
  traf : Option String

/-- Two-stage content extraction as performed inline in `_fetch_webpage`:
the primary extractor's result when it is truthy (present and non-empty),
otherwise the structural fallback. -/
def extractContent (d : Document) : String :=
  match d.traf with
  | some s => if s.data.isEmpty then fallbackExtract d.dom else s
  | none => fallbackExtract d.dom

/-! ## Single-page fetch (`_fetch_webpage`) -/

/-- What the HTTP layer delivered for one `session.get`: either an exception
raised during the request (connection, DNS, TLS, timeout, body decode), or a
complete response with its status code, status message, content type and
body. -/
inductive HttpEvent where
  | raised (msg : String)
  | response (status : Nat) (statusMsg : String) (contentType : String) (body : Document)

/-- Python `repr` of a simple string, as it appears inside aiohttp error
messages. -/
def quoteStr (s : String) : String := "'" ++ s ++ "'"

/-- The message of the `ClientResponseError` raised by
`response.raise_for_status()`: it begins with the numeric status code. -/
def statusErrMsg (status : Nat) (statusMsg url : String) : String :=
  toString status ++ ", message=" ++ quoteStr statusMsg ++ ", url=" ++ quoteStr url

/-- The value returned by `_fetch_webpage`: a success dict
`{url, status_code, content_type, content_length, metadata?, content|raw_html}`
or the failure dict `{url, error, status: "failed"}` built by the
catch-all `except` clause. -/
inductive FetchResult where
  | success (url : String) (status_code : Nat) (content_type : String)
      (content_length : Nat) (metadata : Option PageMetadata)
      (content : Option String) (raw_html : Option String)
  | failure (url : String) (error : String)
deriving Repr, DecidableEq

/-- Whether the result dict carries an `"error"` key. -/
def FetchResult.hasError : FetchResult → Bool
  | .failure _ _ => true
  | .success _ _ _ _ _ _ _ => false

/-- `_fetch_webpage`: `raise_for_status()` raises `ClientResponseError` for
status ≥ 400; any exception is caught by the catch-all handler and turned
into the failure dict; otherwise the success dict is built, with metadata
when `include_metadata`, and either extracted content (primary extractor
with structural fallback) or the raw HTML depending on `extract_content`. -/
def fetch_webpage (ev : HttpEvent) (url : String)
    (extract_content include_metadata : Bool) : FetchResult :=
  match ev with
  | .raised msg => .failure url msg
  | .response status statusMsg contentType body =>
      if 400 ≤ status then
        .failure url (statusErrMsg status statusMsg url)
      else
        .success url status contentType body.raw.length
          (if include_metadata then some (extract_metadata body.dom) else none)
          (if extract_content then some (extractContent body) else none)
          (if extract_content then none else some body.raw)

/-! ## Batch fetch (`_fetch_multiple_pages`) -/

/-- The aggregate dict returned by `_fetch_multiple_pages`. -/
structure BatchResult where
  total_urls : Nat
  successful : Nat
  failed : Nat
  results : List FetchResult
deriving Repr, DecidableEq

/-- `_fetch_multiple_pages`: each URL goes through `_fetch_webpage` (the
`max_concurrent` semaphore bounds how many fetches are in flight, which the
functional denotation does not observe; `asyncio.gather` keeps results in
task order, i.e. input order, so the fan-out denotes a map over the input
list); `successful` counts result dicts without an `"error"` key, `failed`
counts those with one (`_fetch_webpage` catches every exception, so no
gathered result is an exception object). -/
def fetch_multiple_pages (env : String → HttpEvent) (urls : List String)
    (extract_content include_metadata : Bool) (max_concurrent : Nat) : BatchResult :=
  let results := urls.map (fun u => fetch_webpage (env u) u extract_content include_metadata)
  { total_urls := urls.length
    successful := (results.filter (fun r => !r.hasError)).length
    failed := (results.filter (fun r => r.hasError)).length
    results := results }

/-! ## Search (`_search_webpage_content`, lines 317-370)

Content and terms are modelled as `List Char` so that Python's index
arithmetic (`str.find`, slicing) is positional, as in the source. -/

/-- Whether `term` occurs in `content` at position `pos`
(`content[pos:pos+len(term)] == term`, the occurrence fully inside the
string, as required by Python `str.find`). -/
def occursAt (content term : List Char) (pos : Nat) : Prop :=
  pos + term.length ≤ content.length ∧ (content.drop pos).take term.length = term

instance (content term : List Char) (pos : Nat) : Decidable (occursAt content term pos) := by
  unfold occursAt; infer_instance

/-- Python `content.find(term, start)`: the least position `≥ start` at which
`term` occurs in `content`, `none` when there is none (`-1` in Python).
Candidate positions range over `0..content.length`; any occurrence lies in
that range, so the first match of the scan is exactly Python's result. -/
def findFrom (content term : List Char) (start : Nat) : Option Nat :=
  (List.range (content.length + 1)).find?
    (fun p => decide (start ≤ p ∧ occursAt content term p))

/-- `find?` on a strictly sorted list returns a position no later than any
satisfying member. -/
theorem find?_sorted_min {l : List Nat} {p : Nat → Bool} {a b : Nat}
    (hs : l.Pairwise (· < ·)) (hf : l.find? p = some a) (hb : b ∈ l) (hpb : p b) :
    a ≤ b := by
  induction l with
  | nil => cases hf
  | cons x xs ih =>
      by_cases hpx : p x
      · rw [List.find?_cons_of_pos _ hpx] at hf
        cases hf
        rcases List.mem_cons.mp hb with rfl | hbxs
        · exact le_rfl
        · exact le_of_lt ((List.pairwise_cons.mp hs).1 b hbxs)
      · rw [List.find?_cons_of_neg _ hpx] at hf
        rcases List.mem_cons.mp hb with rfl | hbxs
        · exact absurd hpb hpx
        · exact ih (List.pairwise_cons.mp hs).2 hf hbxs

/-- A successful `find` is an occurrence at or after `start`. -/
theorem findFrom_some (content term : List Char) (start pos : Nat)
    (h : findFrom content term start = some pos) :
    start ≤ pos ∧ occursAt content term pos := by
  have := List.find?_some h
  simpa using this

/-- A successful `find` is the least occurrence at or after `start`. -/
theorem findFrom_min (content term : List Char) (start pos q : Nat)
    (h : findFrom content term start = some pos)
    (hq : start ≤ q) (hocc : occursAt content term q) : pos ≤ q := by
  apply find?_sorted_min (List.pairwise_lt_range _) h
  · exact List.mem_range.mpr (by have := hocc.1; omega)
  · simp [hq, hocc]

/-- When `find` fails there is no occurrence at or after `start`. -/
theorem findFrom_none (content term : List Char) (start q : Nat)
    (h : findFrom content term start = none)
    (hq : start ≤ q) (hocc : occursAt content term q) : False := by
  rw [findFrom, List.find?_eq_none] at h
  exact absurd (by simp [hq, hocc] : (decide (start ≤ q ∧ occursAt content term q)) = true)
    (by simpa using h q (List.mem_range.mpr (by have := hocc.1; omega)))

/-- The scan loop of `_search_webpage_content` for one term, with an explicit
iteration bound: repeatedly `find` from `start`, record the hit position, and
resume at the hit position plus one.  Each iteration strictly increases
`start` and `start` never exceeds `content.length + 1`, so
`content.length + 1 - start` iterations always suffice; `scanLoop_fuel_free`
below certifies that the bound is not observable, i.e. this is the Python
`while True` loop. -/
def scanLoop : Nat → List Char → List Char → Nat → List Nat
  | 0, _, _, _ => []
  | fuel + 1, content, term, start =>
      match findFrom content term start with
      | none => []
      | some pos => pos :: scanLoop fuel content term (pos + 1)

/-- The scan loop for one term, started with enough iterations. -/
def scanTerm (content term : List Char) (start : Nat) : List Nat :=
  scanLoop (content.length + 1 - start) content term start

/-- Any sufficient iteration bound gives the same scan result, so `scanLoop`
with the bound chosen in `scanTerm` denotes the unbounded loop. -/
theorem scanLoop_fuel_free (fuel : Nat) :
    ∀ (fuel' : Nat) (content term : List Char) (start : Nat),
      content.length + 1 - start ≤ fuel → content.length + 1 - start ≤ fuel' →
      scanLoop fuel content term start = scanLoop fuel' content term start := by
  induction fuel with
  | zero =>
      intro fuel' c t s hle hle'
      have hnone : findFrom c t s = none := by
        cases hf : findFrom c t s with
        | none => rfl
        | some pos =>
            obtain ⟨h1, h2⟩ := findFrom_some c t s pos hf
            have := h2.1
            omega
      cases fuel' with
      | zero => rfl
      | succ n => simp [scanLoop, hnone]
  | succ fuel ih =>
      intro fuel' c t s hle hle'
      cases hf : findFrom c t s with
      | none =>
          cases fuel' with
          | zero => simp [scanLoop, hf]
          | succ n => simp [scanLoop, hf]
      | some pos =>
          obtain ⟨h1, h2⟩ := findFrom_some c t s pos hf
          have hb := h2.1
          cases fuel' with
          | zero => exact absurd hle' (by omega)
          | succ n =>
              simp only [scanLoop, hf]
              exact congrArg (pos :: ·) (ih n c t (pos + 1) (by omega) (by omega))

/-- Membership in the scan loop's result: exactly the occurrences at or
after `start`, provided the iteration bound is sufficient. -/
theorem scanLoop_mem (fuel : Nat) :
    ∀ (content term : List Char) (start q : Nat),
      content.length + 1 - start ≤ fuel →
      (q ∈ scanLoop fuel content term start ↔ start ≤ q ∧ occursAt content term q) := by
  induction fuel with
  | zero =>
      intro c t s q hle
      simp only [scanLoop, List.not_mem_nil, false_iff]
      rintro ⟨hsq, hq1, -⟩
      omega
  | succ fuel ih =>
      intro c t s q hle
      cases hf : findFrom c t s with
      | none =>
          simp only [scanLoop, hf, List.not_mem_nil, false_iff]
          rintro ⟨hsq, hocc⟩
          exact findFrom_none c t s q hf hsq hocc
      | some pos =>
          obtain ⟨hsp, hop⟩ := findFrom_some c t s pos hf
          have hrec := ih c t (pos + 1) q (by have := hop.1; omega)
          simp only [scanLoop, hf, List.mem_cons, hrec]
          constructor
          · rintro (rfl | ⟨h1, h2⟩)
            · exact ⟨hsp, hop⟩
            · exact ⟨by omega, h2⟩
          · rintro ⟨hsq, hocc⟩
            have := findFrom_min c t s pos q hf hsq hocc
            by_cases hpq : q = pos
            · exact Or.inl hpq
            · exact Or.inr ⟨by omega, hocc⟩

/-- The scan for a term, started at position 0, reports exactly the
positions at which the term occurs — overlapping occurrences included. -/
theorem scanTerm_mem (content term : List Char) (q : Nat) :
    q ∈ scanTerm content term 0 ↔ occursAt content term q := by
  rw [scanTerm, scanLoop_mem _ content term 0 q le_rfl]
  simp

/-- One entry of the `matches` list built by `_search_webpage_content`. -/
structure SearchMatch where
  term : List Char
  position : Nat
  context : List Char
  context_start : Nat
  context_end : Nat
deriving Repr, DecidableEq

/-- The match entry built for one hit of `term` at `pos`: the context window
runs from `max(0, pos - context_chars // 2)` (natural subtraction) to
`min(len(content), pos + len(term) + context_chars // 2)` and is sliced from
`content` — the original, non-lowercased content. -/
def mkMatch (content term : List Char) (contextChars pos : Nat) : SearchMatch :=
  let contextStart := pos - contextChars / 2
  let contextEnd := min content.length (pos + term.length + contextChars / 2)
  { term := term
    position := pos
    context := (content.drop contextStart).take (contextEnd - contextStart)
    context_start := contextStart
    context_end := contextEnd }

/-- The full `matches` list: in case-insensitive mode both the content that
is scanned and the terms are lower-cased first; terms are processed in
caller order, each contributing its scan hits in increasing position order;
context windows are always sliced from the original `content`. -/
def searchMatches (content : List Char) (terms : List (List Char))
    (case_sensitive : Bool) (contextChars : Nat) : List SearchMatch :=
  let searchContent := if case_sensitive then content else content.map Char.toLower
  let terms' := if case_sensitive then terms else terms.map (List.map Char.toLower)
  terms'.flatMap (fun term =>
    (scanTerm searchContent term 0).map (mkMatch content term contextChars))

/-- The dict returned by `_search_webpage_content` on a successfully fetched
page: `search_terms` echoes `args["search_terms"]` (the caller's original
terms), while the match entries carry the possibly lower-cased term.  The
`matchList` field models the dict's `"matches"` key. -/
structure SearchResponse where
  search_terms : List (List Char)
  total_matches : Nat
  matchList : List SearchMatch
  content_length : Nat
deriving Repr, DecidableEq

/-- `_search_webpage_content`, given the extracted content of the fetched
page. -/
def search_webpage_content (content : List Char) (terms : List (List Char))
    (case_sensitive : Bool) (contextChars : Nat) : SearchResponse :=
  let ms := searchMatches content terms case_sensitive contextChars
  { search_terms := terms
    total_matches := ms.length
    matchList := ms
    content_length := content.length }

/-! ## Link extraction (`_extract_links`, lines 372-435)

`urllib.parse.urlparse(...).netloc` and `urllib.parse.urljoin` are standard
library calls; they are modelled below for the URL shapes that occur in web
pages (absolute, protocol-relative, rooted, relative and fragment hrefs).
The link-classification theorems do not depend on the model: they hold for
every string the resolver could return. -/

/-- A character allowed inside a URL scheme after its first letter. -/
def isSchemeChar (c : Char) : Bool :=
  c.isAlpha || c.isDigit || c == '+' || c == '-' || c == '.'

/-- Split `scheme:` off a URL as `urlparse` does: the scheme is a leading
letter followed by scheme characters, up to a colon; otherwise the URL has
no scheme. -/
def splitScheme (url : String) : Option String × String :=
  let cs := url.data
  let pre := cs.takeWhile (fun c => c ≠ ':')
  match pre with
  | [] => (none, url)
  | c :: rest =>
      if pre.length < cs.length && c.isAlpha && rest.all isSchemeChar then
        (some (String.mk (pre.map Char.toLower)), String.mk (cs.drop (pre.length + 1)))
      else (none, url)

/-- `urlparse(url).netloc`: the authority component — present only when the
URL (after its scheme, if any) starts with `//`, and running to the next
`/`, `?` or `#`; the empty string otherwise. -/
def urlNetloc (url : String) : String :=
  let rest := (splitScheme url).2.data
  if ['/', '/'].isPrefixOf rest then
    String.mk ((rest.drop 2).takeWhile (fun c => c ≠ '/' && c ≠ '?' && c ≠ '#'))
  else ""

/-- The prefix of a path up to and including its last `/`; empty when the
path has no `/`. -/
def dirOf (path : String) : String :=
  String.mk ((path.data.reverse.dropWhile (fun c => c ≠ '/')).reverse)

/-- Resolution of `r` against a base given by scheme and scheme-less rest,
following `urljoin`: protocol-relative keeps the scheme; rooted paths keep
scheme and authority; a fragment keeps the whole base path; a relative path
replaces the base path's last segment. -/
def joinRel (scheme : Option String) (brest r : String) : String :=
  let schemeStr := match scheme with
    | some s => s ++ ":"
    | none => ""
  if ['/', '/'].isPrefixOf r.data then schemeStr ++ r
  else
    let hasAuth := ['/', '/'].isPrefixOf brest.data
    let bnet := if hasAuth then
        String.mk ((brest.data.drop 2).takeWhile (fun c => c ≠ '/' && c ≠ '?' && c ≠ '#'))
      else ""
    let bpath0 := if hasAuth then
        (brest.data.drop 2).dropWhile (fun c => c ≠ '/' && c ≠ '?' && c ≠ '#')
      else brest.data
    let bpath := String.mk (bpath0.takeWhile (fun c => c ≠ '?' && c ≠ '#'))
    let authStr := if hasAuth then "//" ++ bnet else ""
    if ['/'].isPrefixOf r.data then schemeStr ++ authStr ++ r
    else if ['#'].isPrefixOf r.data then schemeStr ++ authStr ++ bpath ++ r
    else if hasAuth && bpath.data.isEmpty then schemeStr ++ authStr ++ "/" ++ r
    else schemeStr ++ authStr ++ dirOf bpath ++ r

/-- `urljoin(base, url)` for the modelled URL shapes: an empty `url` yields
the base; a `url` whose scheme differs from the base's is returned
unchanged; otherwise `url` is resolved against the base. -/
def urljoin (base url : String) : String :=
  if url.data.isEmpty then base
  else
    let bu := splitScheme base
    let uu := splitScheme url
    match uu.1 with
    | some s => if bu.1 = some s then joinRel (some s) bu.2 uu.2 else url
    | none => joinRel bu.1 bu.2 url

/-- The element predicate of `soup.find_all('a', href=True)`. -/
def isAnchorWithHref (t : String) (a : List (String × String)) : Bool :=
  t == "a" && (attrGet a "href").isSome

/-- One entry of the `links` list built by `_extract_links`. -/
structure LinkInfo where
  url : String
  text : String
  title : String
  is_internal : Bool
  is_external : Bool
deriving Repr, DecidableEq

/-- The dict returned by `_extract_links` on a successful fetch. -/
structure LinksResult where
  source_url : String
  total_links : Nat
  internal_count : Nat
  external_count : Nat
  links : List LinkInfo
deriving Repr, DecidableEq

/-- The per-anchor step of `_extract_links`: skip fragment hrefs unless
requested, resolve the href, classify against the page's domain
(`is_internal`: resolved domain equals the base domain; `is_external`:
differs from it and is non-empty), apply the two inclusion filters, and
build the link record (`title` defaults to the empty string). -/
def processAnchor (url base_domain : String)
    (filter_internal filter_external include_anchors : Bool) (n : Node) :
    Option LinkInfo :=
  match n with
  | Node.text _ => none
  | Node.elem _ a c =>
      let href := (attrGet a "href").getD ""
      if ['#'].isPrefixOf href.data && !include_anchors then none
      else
        let absolute := urljoin url href
        let link_domain := urlNetloc absolute
        let isInt := link_domain == base_domain
        let isExt := link_domain != base_domain && link_domain != ""
        if filter_internal && !isInt then none
        else if filter_external && !isExt then none
        else some { url := absolute
                    text := getStrippedText c
                    title := (attrGet a "title").getD ""
                    is_internal := isInt
                    is_external := isExt }

/-- `_extract_links`, given the parsed document of the fetched page: iterate
the anchors carrying an `href` (`soup.find_all('a', href=True)`) in document
order, and aggregate the classification counts over the retained records. -/
def extract_links (url : String) (dom : NodeList)
    (filter_internal filter_external include_anchors : Bool) : LinksResult :=
  let base_domain := urlNetloc url
  let anchors := findAllElems isAnchorWithHref dom
  let links := anchors.filterMap
    (processAnchor url base_domain filter_internal filter_external include_anchors)
  { source_url := url
    total_links := links.length
    internal_count := (links.filter (fun l => l.is_internal)).length
    external_count := (links.filter (fun l => l.is_external)).length
    links := links }

/-! ## Helper lemmas: metadata field bookkeeping -/

theorem getField_setField (f g : MetaField) (v : String) (md : PageMetadata) :
    getField f (setField g v md) = if g = f then some v else getField f md := by
  cases g <;> cases f <;> simp [getField, setField]

theorem getField_processMeta (f : MetaField) (md : PageMetadata)
    (a : List (String × String)) :
    getField f (processMeta md a) =
      if metaFieldOf a = some f then some ((attrGet a "content").getD "")
      else getField f md := by
  unfold processMeta
  cases hmf : metaFieldOf a with
  | none => simp
  | some g =>
      rw [getField_setField]
      by_cases hgf : g = f <;> simp [hgf]

theorem getField_foldl (ms : List (List (String × String))) (md : PageMetadata)
    (f : MetaField) :
    getField f (ms.foldl processMeta md) =
      match ms.reverse.find? (fun a => decide (metaFieldOf a = some f)) with
      | some a => some ((attrGet a "content").getD "")
      | none => getField f md := by
  induction ms generalizing md with
  | nil => simp
  | cons a ms ih =>
      rw [List.foldl_cons, ih, List.reverse_cons, List.find?_append]
      cases hf : ms.reverse.find? (fun a => decide (metaFieldOf a = some f)) with
      | some b => simp
      | none =>
          simp only [Option.none_or]
          rw [getField_processMeta]
          by_cases hmf : metaFieldOf a = some f <;> simp [hmf, List.find?]

theorem getField_addCanonical (dom : NodeList) (md : PageMetadata) (f : MetaField) :
    getField f (addCanonical dom md) = getField f md := by
  unfold addCanonical
  cases h : findFirstElem isCanonicalLink dom with
  | none => rfl
  | some n => cases n with
    | text s => rfl
    | elem t a c => cases f <;> rfl

theorem getField_addLanguage (dom : NodeList) (md : PageMetadata) (f : MetaField) :
    getField f (addLanguage dom md) = getField f md := by
  unfold addLanguage
  cases h : findFirstElem isHtmlTag dom with
  | none => rfl
  | some n => cases n with
    | text s => rfl
    | elem t a c => cases f <;> rfl

theorem getField_extract_metadata (dom : NodeList) (f : MetaField) :
    getField f (extract_metadata dom) =
      ((metaAttrsOf dom).reverse.find? (fun a => decide (metaFieldOf a = some f))).map
        (fun a => (attrGet a "content").getD "") := by
  unfold extract_metadata
  rw [getField_addLanguage, getField_addCanonical, getField_foldl]
  cases hf : (metaAttrsOf dom).reverse.find? (fun a => decide (metaFieldOf a = some f)) with
  | some a => simp
  | none => cases f <;> simp [getField]

theorem processMeta_title (md : PageMetadata) (a : List (String × String)) :
    (processMeta md a).title = md.title := by
  unfold processMeta
  cases metaFieldOf a with
  | none => rfl
  | some f => cases f <;> rfl

theorem processMeta_canonical (md : PageMetadata) (a : List (String × String)) :
    (processMeta md a).canonical_url = md.canonical_url := by
  unfold processMeta
  cases metaFieldOf a with
  | none => rfl
  | some f => cases f <;> rfl

theorem processMeta_language (md : PageMetadata) (a : List (String × String)) :
    (processMeta md a).language = md.language := by
  unfold processMeta
  cases metaFieldOf a with
  | none => rfl
  | some f => cases f <;> rfl

theorem foldl_processMeta_title (ms : List (List (String × String))) (md : PageMetadata) :
    (ms.foldl processMeta md).title = md.title := by
  induction ms generalizing md with
  | nil => rfl
  | cons a ms ih => rw [List.foldl_cons, ih, processMeta_title]

theorem foldl_processMeta_canonical (ms : List (List (String × String))) (md : PageMetadata) :
    (ms.foldl processMeta md).canonical_url = md.canonical_url := by
  induction ms generalizing md with
  | nil => rfl
  | cons a ms ih => rw [List.foldl_cons, ih, processMeta_canonical]

theorem foldl_processMeta_language (ms : List (List (String × String))) (md : PageMetadata) :
    (ms.foldl processMeta md).language = md.language := by
  induction ms generalizing md with
  | nil => rfl
  | cons a ms ih => rw [List.foldl_cons, ih, processMeta_language]

theorem addCanonical_title (dom : NodeList) (md : PageMetadata) :
    (addCanonical dom md).title = md.title := by
  unfold addCanonical
  cases findFirstElem isCanonicalLink dom with
  | none => rfl
  | some n => cases n <;> rfl

theorem addCanonical_language (dom : NodeList) (md : PageMetadata) :
    (addCanonical dom md).language = md.language := by
  unfold addCanonical
  cases findFirstElem isCanonicalLink dom with
  | none => rfl
  | some n => cases n <;> rfl

theorem addLanguage_title (dom : NodeList) (md : PageMetadata) :
    (addLanguage dom md).title = md.title := by
  unfold addLanguage
  cases findFirstElem isHtmlTag dom with
  | none => rfl
  | some n => cases n <;> rfl

theorem addLanguage_canonical (dom : NodeList) (md : PageMetadata) :
    (addLanguage dom md).canonical_url = md.canonical_url := by
  unfold addLanguage
  cases findFirstElem isHtmlTag dom with
  | none => rfl
  | some n => cases n <;> rfl

/-- The `title` key is always present, holding exactly the computed title
text. -/
theorem extract_metadata_title (dom : NodeList) :
    (extract_metadata dom).title = some (titleTextOf dom) := by
  unfold extract_metadata
  rw [addLanguage_title, addCanonical_title, foldl_processMeta_title]

/-- The `canonical_url` key is present exactly when a canonical link element
exists. -/
theorem extract_metadata_canonical (dom : NodeList) :
    (extract_metadata dom).canonical_url =
      match findFirstElem isCanonicalLink dom with
      | some (Node.elem _ a _) => some ((attrGet a "href").getD "")
      | _ => none := by
  unfold extract_metadata addCanonical
  rw [addLanguage_canonical]
  cases findFirstElem isCanonicalLink dom with
  | none => exact foldl_processMeta_canonical _ _
  | some n => cases n with
    | text s => exact foldl_processMeta_canonical _ _
    | elem t a c => rfl

/-- The `language` key is present exactly when an `<html>` element exists. -/
theorem extract_metadata_language (dom : NodeList) :
    (extract_metadata dom).language =
      match findFirstElem isHtmlTag dom with
      | some (Node.elem _ a _) => some ((attrGet a "lang").getD "")
      | _ => none := by
  unfold extract_metadata addLanguage
  cases findFirstElem isHtmlTag dom with
  | none => rw [addCanonical_language, foldl_processMeta_language]
  | some n => cases n with
    | text s => rw [addCanonical_language, foldl_processMeta_language]
    | elem t a c => rfl

/-! ## Helper lemmas: link classification and search -/

theorem processAnchor_some (url b : String) (fi fe ia : Bool) (n : Node) (l : LinkInfo)
    (h : processAnchor url b fi fe ia n = some l) :
    l.is_internal = (urlNetloc l.url == b)
    ∧ l.is_external = (urlNetloc l.url != b && urlNetloc l.url != "")
    ∧ (fi = true → l.is_internal = true)
    ∧ (fe = true → l.is_external = true) := by
  unfold processAnchor at h
  cases n with
  | text s => cases h
  | elem t a c =>
      dsimp only at h
      split at h
      · cases h
      · split at h
        · cases h
        · rename_i h1 h2
          split at h
          · cases h
          · rename_i h3
            cases h
            refine ⟨rfl, rfl, ?_, ?_⟩
            · intro hfi
              subst hfi
              dsimp only
              cases hInt : (urlNetloc (urljoin url ((attrGet a "href").getD "")) ==
                  b) <;> simp_all
            · intro hfe
              subst hfe
              dsimp only
              cases hExt : (urlNetloc (urljoin url ((attrGet a "href").getD "")) != b &&
                  urlNetloc (urljoin url ((attrGet a "href").getD "")) != "") <;> simp_all

theorem processAnchor_both_filters (url b : String) (ia : Bool) (n : Node) :
    processAnchor url b true true ia n = none := by
  unfold processAnchor
  cases n with
  | text s => rfl
  | elem t a c =>
      dsimp only
      split
      · rfl
      · split
        · rfl
        · split
          · rfl
          · rename_i h1 h2
            exfalso
            cases hInt : (urlNetloc (urljoin url ((attrGet a "href").getD "")) == b) <;>
              simp_all

theorem extract_links_mem (url : String) (dom : NodeList) (fi fe ia : Bool) (l : LinkInfo)
    (h : l ∈ (extract_links url dom fi fe ia).links) :
    ∃ n ∈ findAllElems isAnchorWithHref dom,
      processAnchor url (urlNetloc url) fi fe ia n = some l := by
  unfold extract_links at h
  simpa [List.mem_filterMap] using h

theorem extract_links_both_filters (url : String) (dom : NodeList) (ia : Bool) :
    (extract_links url dom true true ia).links = [] := by
  unfold extract_links
  dsimp only
  rw [List.filterMap_eq_nil_iff]
  intro n _
  exact processAnchor_both_filters url (urlNetloc url) ia n

theorem length_filter_disjoint {α : Type} (p q : α → Bool) (l : List α)
    (h : ∀ x ∈ l, ¬(p x = true ∧ q x = true)) :
    (l.filter p).length + (l.filter q).length ≤ l.length := by
  induction l with
  | nil => simp
  | cons a l ih =>
      have ha := h a (List.mem_cons_self a l)
      have ih' := ih (fun x hx => h x (List.mem_cons_of_mem a hx))
      by_cases hp : p a
      · by_cases hq : q a
        · exact absurd ⟨hp, hq⟩ ha
        · simp [List.filter_cons, hp, hq]
          omega
      · by_cases hq : q a <;> simp [List.filter_cons, hp, hq] <;> omega

theorem searchMatches_mem (content : List Char) (terms : List (List Char))
    (cs : Bool) (cc : Nat) (m : SearchMatch)
    (h : m ∈ searchMatches content terms cs cc) :
    ∃ t ∈ (if cs then terms else terms.map (List.map Char.toLower)),
      ∃ pos ∈ scanTerm (if cs then content else content.map Char.toLower) t 0,
        m = mkMatch content t cc pos := by
  unfold searchMatches at h
  dsimp only at h
  rw [List.mem_flatMap] at h
  obtain ⟨t, ht, hm⟩ := h
  rw [List.mem_map] at hm
  obtain ⟨pos, hpos, hmk⟩ := hm
  exact ⟨t, ht, pos, hpos, hmk.symm⟩

/-! ## Concrete fixtures used by witnesses and counterexamples -/

/-- An empty fetched document. -/
def emptyDocument : Document := { raw := "", dom := NodeList.nil, traf := none }

/-- The document of the fallback-extraction example:
`<html><body><script>x</script><p>Hello  World</p></body></html>`. -/
def sampleFallbackDoc : NodeList := NodeList.ofList
  [Node.elem "html" [] (NodeList.ofList [Node.elem "body" [] (NodeList.ofList
    [Node.elem "script" [] (NodeList.ofList [Node.text "x"]),
     Node.elem "p" [] (NodeList.ofList [Node.text "Hello  World"])])])]

/-- A document with two description metas: `Description` → "A" first, then
`description` → "B". -/
def sampleMetaDoc : NodeList := NodeList.ofList
  [Node.elem "meta" [("name", "Description"), ("content", "A")] NodeList.nil,
   Node.elem "meta" [("name", "description"), ("content", "B")] NodeList.nil]

/-- A document with one internal, one external and one fragment link,
hosted at `https://a.com/p`. -/
def sampleLinkDoc : NodeList := NodeList.ofList
  [Node.elem "body" [] (NodeList.ofList
    [Node.elem "a" [("href", "/x")] (NodeList.ofList [Node.text "in"]),
     Node.elem "a" [("href", "https://b.com/y")] (NodeList.ofList [Node.text "out"]),
     Node.elem "a" [("href", "#frag")] (NodeList.ofList [Node.text "anch"])])]

/-- A page whose anchor resolves to a host-less URL, on a host-less source
URL. -/
def hostlessLinkDoc : NodeList := NodeList.ofList
  [Node.elem "a" [("href", "bar.html")] NodeList.nil]

/-- A network environment for the batch example: `u2` raises a connection
error, every other URL returns a 200 page. -/
def sampleBatchEnv : String → HttpEvent := fun u =>
  if u = "u2" then HttpEvent.raised "connection failed"
  else HttpEvent.response 200 "OK" "text/html"
    { raw := "<p>ok</p>", dom := NodeList.ofList [Node.elem "p" [] (NodeList.ofList [Node.text "ok"])],
      traf := some "ok" }

/-! ## The claims -/

/-- **C1** (corrected): the claim says every non-2xx status yields a
`Failure` of kind `http_status`.  In the code `raise_for_status()` raises
only for status ≥ 400, so a 304 response takes the success path: the claim
is false as stated. -/
theorem C1_counterexample :
    (304 < 200 ∨ 300 ≤ 304)
    ∧ (fetch_webpage (HttpEvent.response 304 "Not Modified" "text/html" emptyDocument)
        "http://e.com" true true).hasError = false := by
  exact ⟨by decide, by decide⟩

/-- **C1** (amended): for every response status ≥ 400, `_fetch_webpage`
returns the failure dict `{url, error, status: "failed"}` (with no `kind`
field) whose error message starts with the numeric status code, and a raised
exception is likewise converted into a failure dict — no failure propagates
past the component boundary. -/
theorem C1_http_failure_as_value (status : Nat)
    (statusMsg contentType url errMsg : String) (d : Document) (ec im : Bool)
    (h : 400 ≤ status) :
    fetch_webpage (HttpEvent.response status statusMsg contentType d) url ec im
      = FetchResult.failure url (statusErrMsg status statusMsg url)
    ∧ (∃ rest, (statusErrMsg status statusMsg url).data = (toString status).data ++ rest)
    ∧ fetch_webpage (HttpEvent.raised errMsg) url ec im = FetchResult.failure url errMsg := by
  refine ⟨?_, ⟨(", message=" ++ quoteStr statusMsg ++ ", url=" ++ quoteStr url).data, ?_⟩, rfl⟩
  · simp [fetch_webpage, h]
  · unfold statusErrMsg
    simp [String.data_append, List.append_assoc]

/-- **C1** witness: the amended claim at a concrete 404 response. -/
theorem C1_http_failure_as_value_witness :
    fetch_webpage (HttpEvent.response 404 "Not Found" "text/html" emptyDocument)
      "http://e.com" true true
      = FetchResult.failure "http://e.com" (statusErrMsg 404 "Not Found" "http://e.com")
    ∧ (∃ rest, (statusErrMsg 404 "Not Found" "http://e.com").data = (toString 404).data ++ rest)
    ∧ fetch_webpage (HttpEvent.raised "boom") "http://e.com" true true
      = FetchResult.failure "http://e.com" "boom" :=
  C1_http_failure_as_value 404 "Not Found" "text/html" "http://e.com" "boom"
    emptyDocument true true (by decide)

/-- **C2** (corrected): the claim says the first occurrence of a repeated
meta name wins; the if/elif chain assigns on every matching tag, so the last
occurrence wins: with `Description` → "A" before `description` → "B" the
extractor returns "B", not "A". -/
theorem C2_counterexample :
    (extract_metadata sampleMetaDoc).description ≠ some "A"
    ∧ (extract_metadata sampleMetaDoc).description = some "B" := by
  exact ⟨by decide, by decide⟩

/-- **C2** (amended): for every document and recognized field, the value is
the content of the LAST `<meta>` tag (in document order) whose lower-cased
name/property feeds that field — names and properties matched
case-insensitively — and the field is absent when no tag feeds it. -/
theorem C2_meta_last_occurrence_wins (dom : NodeList) (f : MetaField) :
    getField f (extract_metadata dom) =
      ((metaAttrsOf dom).reverse.find? (fun a => decide (metaFieldOf a = some f))).map
        (fun a => (attrGet a "content").getD "") :=
  getField_extract_metadata dom f

/-- **C3** (corrected): on the claim's example document the fallback output
joins the fragments `Hello` and `World` with a newline, so it is
`"Hello\nWorld"`, not `"Hello World"` as the claim states. -/
theorem C3_counterexample :
    fallbackExtract sampleFallbackDoc ≠ "Hello World"
    ∧ fallbackExtract sampleFallbackDoc = "Hello\nWorld" := by
  exact ⟨by decide, by decide⟩

/-- **C3** (amended): the structural fallback runs iff the primary extractor
yields an empty or absent result; it strips `<script>`/`<style>` subtrees,
splits on line boundaries, trims, splits on the two-space separator, drops
empty fragments and joins with single newlines — on the example document the
output is exactly `"Hello\nWorld"`. -/
theorem C3_fallback_two_stage :
    (∀ (d : Document) (s : String), d.traf = some s → s ≠ "" → extractContent d = s)
    ∧ (∀ d : Document, d.traf = none ∨ d.traf = some "" →
        extractContent d = fallbackExtract d.dom)
    ∧ fallbackExtract sampleFallbackDoc = "Hello\nWorld" := by
  refine ⟨?_, ?_, by decide⟩
  · intro d s hs hne
    have hemp : s.data.isEmpty = false := by
      cases s with
      | mk l =>
          cases l with
          | nil => exact absurd rfl hne
          | cons c cs => rfl
    unfold extractContent
    rw [hs]
    simp [hemp]
  · intro d hd
    unfold extractContent
    rcases hd with h | h <;> rw [h] <;> rfl

/-- **C3** witness: a non-empty primary result is returned unchanged; a
missing primary result triggers the fallback. -/
theorem C3_fallback_two_stage_witness :
    extractContent { raw := "", dom := NodeList.nil, traf := some "body text" } = "body text"
    ∧ extractContent { raw := "", dom := sampleFallbackDoc, traf := none }
      = fallbackExtract sampleFallbackDoc :=
  ⟨C3_fallback_two_stage.1 _ "body text" rfl (by decide),
   C3_fallback_two_stage.2.1 _ (Or.inl rfl)⟩

/-- **C4** (confirmed): the scan resumes one position past each hit's start,
so it reports exactly every occurrence — overlapping ones included; on
content `"aaa"` with term `"aa"` (case-sensitive) it returns 2 matches, at
offsets 0 and 1. -/
theorem C4_overlapping_scan :
    (∀ (content term : List Char) (q : Nat),
        q ∈ scanTerm content term 0 ↔ occursAt content term q)
    ∧ ((search_webpage_content "aaa".data ["aa".data] true 200).matchList.map
        (fun m => m.position)) = [0, 1]
    ∧ (search_webpage_content "aaa".data ["aa".data] true 200).total_matches = 2 := by
  exact ⟨scanTerm_mem, by decide, by decide⟩

/-- **C5** (confirmed): every match's context window is the slice of the
ORIGINAL (non-lowercased) content from `pos - context_chars/2` (clamped at 0
by natural subtraction) to `min(len(content), pos + len(term) +
context_chars/2)`. -/
theorem C5_context_window (content : List Char) (terms : List (List Char))
    (cs : Bool) (cc : Nat) (m : SearchMatch)
    (h : m ∈ (search_webpage_content content terms cs cc).matchList) :
    m.context_start = m.position - cc / 2
    ∧ m.context_end = min content.length (m.position + m.term.length + cc / 2)
    ∧ m.context = (content.drop (m.position - cc / 2)).take
        (min content.length (m.position + m.term.length + cc / 2) - (m.position - cc / 2)) := by
  obtain ⟨t, ht, pos, hpos, rfl⟩ := searchMatches_mem content terms cs cc m h
  exact ⟨rfl, rfl, rfl⟩

/-- **C5** witness: a case-insensitive search of `"XAbcY"` for `"ABC"`; the
context window preserves the original casing. -/
theorem C5_context_window_witness :
    ({ term := "abc".data, position := 1, context := "XAbcY".data,
       context_start := 0, context_end := 5 } : SearchMatch)
        ∈ (search_webpage_content "XAbcY".data ["ABC".data] false 2).matchList
    ∧ ({ term := "abc".data, position := 1, context := "XAbcY".data,
         context_start := 0, context_end := 5 } : SearchMatch).context_start = 1 - 2 / 2 := by
  refine ⟨by decide, ?_⟩
  exact (C5_context_window "XAbcY".data ["ABC".data] false 2 _ (by decide)).1

/-- **C6** (corrected): `is_internal`/`is_external` are indeed never both
true, and both filters together always yield the empty list; but the claim's
parenthetical — a link whose resolved host is empty is *neither* — fails
when the source URL's own host is empty: such a link is classified
internal. -/
theorem C6_counterexample :
    ((extract_links "foo.html" hostlessLinkDoc false false false).links.map
      (fun l => (urlNetloc l.url, l.is_internal, l.is_external)))
      = [("", true, false)] := by
  decide

/-- **C6** (amended): no link record has `is_internal` and `is_external`
both true; a link with empty resolved host is never external, and is
internal exactly when the source page's host is also empty; with both
filters set the result list is empty for every document. -/
theorem C6_mutual_exclusion :
    (∀ (url : String) (dom : NodeList) (fi fe ia : Bool) (l : LinkInfo),
        l ∈ (extract_links url dom fi fe ia).links →
          ¬(l.is_internal = true ∧ l.is_external = true)
          ∧ (urlNetloc l.url = "" →
              l.is_external = false ∧ (l.is_internal = true ↔ urlNetloc url = "")))
    ∧ (∀ (url : String) (dom : NodeList) (ia : Bool),
        (extract_links url dom true true ia).links = []) := by
  constructor
  · intro url dom fi fe ia l hl
    obtain ⟨n, hn, hp⟩ := extract_links_mem url dom fi fe ia l hl
    obtain ⟨hInt, hExt, -, -⟩ := processAnchor_some _ _ _ _ _ _ _ hp
    constructor
    · rintro ⟨h1, h2⟩
      rw [hInt] at h1
      rw [hExt] at h2
      simp only [beq_iff_eq] at h1
      simp only [bne_iff_ne, ne_eq, Bool.and_eq_true, decide_eq_true_eq] at h2
      exact h2.1 h1
    · intro hempty
      rw [hExt, hInt, hempty]
      constructor
      · simp
      · rw [beq_iff_eq]
        exact eq_comm
  · intro url dom ia
    exact extract_links_both_filters url dom ia

/-- **C6** witness: the amended claim at the sample page — its external link
is not internal, and with both filters the list is empty. -/
theorem C6_mutual_exclusion_witness :
    (¬(({ url := "https://b.com/y", text := "out", title := "",
          is_internal := false, is_external := true } : LinkInfo).is_internal = true
       ∧ ({ url := "https://b.com/y", text := "out", title := "",
            is_internal := false, is_external := true } : LinkInfo).is_external = true))
    ∧ (extract_links "https://a.com/p" sampleLinkDoc true true false).links = [] :=
  ⟨(C6_mutual_exclusion.1 "https://a.com/p" sampleLinkDoc false false false
      { url := "https://b.com/y", text := "out", title := "",
        is_internal := false, is_external := true } (by decide)).1,
   C6_mutual_exclusion.2 "https://a.com/p" sampleLinkDoc false⟩

/-- **C7** (confirmed): the batch returns one result per input URL, in input
order (the i-th result is the single-page fetch of the i-th URL), with
`successful`/`failed` counted from the final per-item outcomes; on
`[u1, u2, u3]` with `max_concurrent = 1` and `u2` failing it returns
`[r1, r2(failure), r3]` with `successful = 2`, `failed = 1`. -/
theorem C7_batch_order_and_counts :
    (∀ (env : String → HttpEvent) (urls : List String) (ec im : Bool) (mc : Nat),
        (fetch_multiple_pages env urls ec im mc).results.length = urls.length
        ∧ (fetch_multiple_pages env urls ec im mc).total_urls = urls.length
        ∧ (∀ i : Nat, (fetch_multiple_pages env urls ec im mc).results[i]?
            = (urls[i]?).map (fun u => fetch_webpage (env u) u ec im))
        ∧ (fetch_multiple_pages env urls ec im mc).successful
            = ((fetch_multiple_pages env urls ec im mc).results.filter
                (fun r => !r.hasError)).length
        ∧ (fetch_multiple_pages env urls ec im mc).failed
            = ((fetch_multiple_pages env urls ec im mc).results.filter
                (fun r => r.hasError)).length)
    ∧ ((fetch_multiple_pages sampleBatchEnv ["u1", "u2", "u3"] true true 1).results
        = [fetch_webpage (sampleBatchEnv "u1") "u1" true true,
           fetch_webpage (sampleBatchEnv "u2") "u2" true true,
           fetch_webpage (sampleBatchEnv "u3") "u3" true true]
       ∧ ((fetch_multiple_pages sampleBatchEnv ["u1", "u2", "u3"] true true 1).results.map
            FetchResult.hasError) = [false, true, false]
       ∧ (fetch_multiple_pages sampleBatchEnv ["u1", "u2", "u3"] true true 1).successful = 2
       ∧ (fetch_multiple_pages sampleBatchEnv ["u1", "u2", "u3"] true true 1).failed = 1) := by
  constructor
  · intro env urls ec im mc
    refine ⟨?_, rfl, ?_, rfl, rfl⟩
    · exact List.length_map urls (fun u => fetch_webpage (env u) u ec im)
    · intro i
      exact List.getElem?_map (fun u => fetch_webpage (env u) u ec im) urls i
  · exact ⟨by decide, by decide, by decide, by decide⟩

/-- **C8** (corrected): meta-derived fields and `canonical_url` are indeed
omitted when absent, and `language` is omitted when no `<html>` element
exists; but `title` is never omitted — it is filled with the empty string
when no `<title>` element exists. -/
theorem C8_counterexample :
    (extract_metadata NodeList.nil).title = some ""
    ∧ (extract_metadata NodeList.nil).title ≠ none := by
  exact ⟨by decide, by decide⟩

/-- **C8** (amended): meta-fed fields are omitted when no tag feeds them;
`canonical_url` is omitted when no canonical link exists; `language` is
omitted when no `<html>` element exists; but `title` is always present
(empty string when no `<title>` exists) and `language` is the empty string
when `<html>` exists without a `lang` attribute. -/
theorem C8_absent_fields (dom : NodeList) :
    (extract_metadata dom).title = some (titleTextOf dom)
    ∧ (findFirstElem isTitleTag dom = none → (extract_metadata dom).title = some "")
    ∧ (∀ f : MetaField,
        (∀ a ∈ metaAttrsOf dom, metaFieldOf a ≠ some f) →
          getField f (extract_metadata dom) = none)
    ∧ (findFirstElem isCanonicalLink dom = none →
        (extract_metadata dom).canonical_url = none)
    ∧ (findFirstElem isHtmlTag dom = none → (extract_metadata dom).language = none)
    ∧ (∀ (t : String) (a : List (String × String)) (c : NodeList),
        findFirstElem isHtmlTag dom = some (Node.elem t a c) →
          attrGet a "lang" = none → (extract_metadata dom).language = some "") := by
  refine ⟨extract_metadata_title dom, ?_, ?_, ?_, ?_, ?_⟩
  · intro h
    rw [extract_metadata_title]
    unfold titleTextOf
    rw [h]
  · intro f hf
    rw [getField_extract_metadata]
    rw [List.find?_eq_none.mpr ?_]
    · rfl
    · intro a ha
      simp only [decide_eq_true_eq]
      exact hf a (List.mem_reverse.mp ha)
  · intro h
    rw [extract_metadata_canonical, h]
  · intro h
    rw [extract_metadata_language, h]
  · intro t a c h hlang
    rw [extract_metadata_language, h]
    simp [hlang]

/-- **C8** witness: the amended claim at the empty document. -/
theorem C8_absent_fields_witness :
    getField MetaField.description (extract_metadata NodeList.nil) = none
    ∧ (extract_metadata NodeList.nil).canonical_url = none
    ∧ (extract_metadata NodeList.nil).language = none
    ∧ (extract_metadata NodeList.nil).title = some "" :=
  ⟨(C8_absent_fields NodeList.nil).2.2.1 MetaField.description (by decide),
   (C8_absent_fields NodeList.nil).2.2.2.1 rfl,
   (C8_absent_fields NodeList.nil).2.2.2.2.1 rfl,
   (C8_absent_fields NodeList.nil).2.1 rfl⟩

/-- **C9** (confirmed): in case-insensitive mode each match's `term` is the
lower-cased form of one of the caller's terms, while the response's
`search_terms` echoes the caller's terms with their original casing. -/
theorem C9_lowered_terms (content : List Char) (terms : List (List Char)) (cc : Nat) :
    (search_webpage_content content terms false cc).search_terms = terms
    ∧ ∀ m ∈ (search_webpage_content content terms false cc).matchList,
        m.term ∈ terms.map (List.map Char.toLower) := by
  refine ⟨rfl, ?_⟩
  intro m hm
  obtain ⟨t, ht, pos, hpos, rfl⟩ := searchMatches_mem content terms false cc m hm
  simpa using ht

/-- **C9** witness: searching `"XAbcY"` for `"ABC"` case-insensitively — the
match's term is `"abc"`, the echoed terms keep `"ABC"`. -/
theorem C9_lowered_terms_witness :
    (search_webpage_content "XAbcY".data ["ABC".data] false 2).search_terms = ["ABC".data]
    ∧ ({ term := "abc".data, position := 1, context := "XAbcY".data,
         context_start := 0, context_end := 5 } : SearchMatch).term
        ∈ ["ABC".data].map (List.map Char.toLower) :=
  ⟨(C9_lowered_terms "XAbcY".data ["ABC".data] 2).1,
   (C9_lowered_terms "XAbcY".data ["ABC".data] 2).2 _ (by decide)⟩

/-- **C10** (confirmed): `total_links` is the length of `links`,
`internal_count`/`external_count` count the records classified internal/
external, and — the classifications being mutually exclusive — their sum
never exceeds `total_links`. -/
theorem C10_link_counts (url : String) (dom : NodeList) (fi fe ia : Bool) :
    (extract_links url dom fi fe ia).total_links
      = (extract_links url dom fi fe ia).links.length
    ∧ (extract_links url dom fi fe ia).internal_count
      = ((extract_links url dom fi fe ia).links.filter (fun l => l.is_internal)).length
    ∧ (extract_links url dom fi fe ia).external_count
      = ((extract_links url dom fi fe ia).links.filter (fun l => l.is_external)).length
    ∧ (extract_links url dom fi fe ia).internal_count
        + (extract_links url dom fi fe ia).external_count
      ≤ (extract_links url dom fi fe ia).total_links := by
  refine ⟨rfl, rfl, rfl, ?_⟩
  have hle := length_filter_disjoint (fun l : LinkInfo => l.is_internal)
    (fun l : LinkInfo => l.is_external) (extract_links url dom fi fe ia).links ?_
  · exact hle
  · intro l hl
    obtain ⟨n, hn, hp⟩ := extract_links_mem url dom fi fe ia l hl
    obtain ⟨hInt, hExt, -, -⟩ := processAnchor_some _ _ _ _ _ _ _ hp
    rintro ⟨h1, h2⟩
    dsimp only at h1 h2
    rw [hInt] at h1
    rw [hExt] at h2
    simp only [beq_iff_eq] at h1
    simp only [bne_iff_ne, ne_eq, Bool.and_eq_true, decide_eq_true_eq] at h2
    exact h2.1 h1
